import Mathlib

/-!
Shallow embedding of `src/index.js` from james-howard/html-video-remaker.

Numbers are modelled as exact rationals (`ℚ`). JavaScript `Math.round` is
modelled per ECMA-262 as `⌊x + 1/2⌋`. Array accesses `a[i]` with an `Int`
index yield `undefined` out of range; a method call or property access on
`undefined` throws a `TypeError`, modelled with `Except JsError`.
-/

namespace HVR

/-- JavaScript runtime errors that the embedded code can raise. -/
inductive JsError : Type where
  | typeError : JsError
deriving DecidableEq, Repr

/-- Embeds `class Point { x, y }` from src/index.js (numeric-argument
constructor form). -/
structure Point where
  x : ℚ
  y : ℚ
deriving DecidableEq, Repr

/-- Embeds `Point.equals`: `p.x == this.x && p.y == this.y`
(receiver `self`, argument `p`). -/
def Point.equals (self p : Point) : Bool :=
  (p.x == self.x) && (p.y == self.y)

/-- Embeds `class Size { width, height }` from src/index.js. -/
structure Size where
  width : ℚ
  height : ℚ
deriving DecidableEq, Repr

/-- Embeds `Size.equals`: `s.width == this.width && s.height == this.height`. -/
def Size.equals (self s : Size) : Bool :=
  (s.width == self.width) && (s.height == self.height)

/-- Embeds `class Rect { origin: Point, size: Size }` from src/index.js
(the four-number constructor form). -/
structure Rect where
  origin : Point
  size : Size
deriving DecidableEq, Repr

/-- Convenience constructor mirroring `new Rect(x, y, w, h)`. -/
def Rect.mk4 (x y w h : ℚ) : Rect :=
  ⟨⟨x, y⟩, ⟨w, h⟩⟩

/-- Embeds the getter `minX`. -/
def Rect.minX (r : Rect) : ℚ := r.origin.x

/-- Embeds the getter `midX`. -/
def Rect.midX (r : Rect) : ℚ := r.origin.x + r.size.width / 2

/-- Embeds the getter `maxX`. -/
def Rect.maxX (r : Rect) : ℚ := r.origin.x + r.size.width

/-- Embeds the getter `minY`. -/
def Rect.minY (r : Rect) : ℚ := r.origin.y

/-- Embeds the getter `midY`. -/
def Rect.midY (r : Rect) : ℚ := r.origin.y + r.size.height / 2

/-- Embeds the getter `maxY`. -/
def Rect.maxY (r : Rect) : ℚ := r.origin.y + r.size.height

/-- Embeds `Rect.containsPoint`:
`p.x >= this.minX && p.x <= this.maxX && p.y >= this.minY && p.y <= this.maxY`. -/
def Rect.containsPoint (r : Rect) (p : Point) : Bool :=
  decide (p.x ≥ r.minX) && decide (p.x ≤ r.maxX) &&
    decide (p.y ≥ r.minY) && decide (p.y ≤ r.maxY)

/-- Embeds `Rect.equals`:
`r.origin.equals(this.origin) && r.size.equals(this.size)`. -/
def Rect.equals (self r : Rect) : Bool :=
  r.origin.equals self.origin && r.size.equals self.size

/-- Embeds `Rect.centeredIn(outer)`. -/
def Rect.centeredIn (self outer : Rect) : Rect :=
  ⟨⟨outer.minX + (outer.size.width - self.size.width) / 2,
    outer.minY + (outer.size.height - self.size.height) / 2⟩,
   ⟨self.size.width, self.size.height⟩⟩

/-- Embeds JavaScript `Math.round` on a finite number (ECMA-262:
round half towards positive infinity), as an integer result. -/
def jsRound (q : ℚ) : ℤ := ⌊q + 1 / 2⌋

/-- Embeds `Rect.alignedToGrid`: each of the four fields passed through
`Math.round`. -/
def Rect.alignedToGrid (r : Rect) : Rect :=
  ⟨⟨(jsRound r.origin.x : ℚ), (jsRound r.origin.y : ℚ)⟩,
   ⟨(jsRound r.size.width : ℚ), (jsRound r.size.height : ℚ)⟩⟩

/-- Embeds `Rect.inset(dx, dy)`. Note the source applies `dx` (not `dy`)
to the Y origin offset:
`new Rect(this.origin.x + dx, this.origin.y + dx, this.size.width - 2*dx, this.size.height - 2*dy)`. -/
def Rect.inset (r : Rect) (dx dy : ℚ) : Rect :=
  ⟨⟨r.origin.x + dx, r.origin.y + dx⟩,
   ⟨r.size.width - 2 * dx, r.size.height - 2 * dy⟩⟩

/-- Model of an offscreen HTML video element as the embedded code observes
it: intrinsic dimensions, whether it is currently playing, and how many
times `pause()` has been issued to it. -/
structure Video where
  naturalWidth : ℚ
  naturalHeight : ℚ
  isPlaying : Bool
  pauseCount : ℕ
deriving DecidableEq, Repr

/-- Model of the element method `pause()`. -/
def Video.pause (v : Video) : Video :=
  { v with isPlaying := false, pauseCount := v.pauseCount + 1 }

/-- Model of the element method `play()`. -/
def Video.playElem (v : Video) : Video :=
  { v with isPlaying := true }

/-- JavaScript array read `a[i]` with an integer index: the element when
`0 ≤ i < a.length`, otherwise `undefined` (`none`). -/
def jsIndex (vs : List Video) (i : ℤ) : Option Video :=
  if h : 0 ≤ i ∧ i.toNat < vs.length then some (vs.get ⟨i.toNat, h.2⟩) else none

/-- JavaScript `a[i].m()` for a mutating element method `f`: a `TypeError`
when `a[i]` is `undefined`, otherwise the list with element `i` updated. -/
def jsModify (vs : List Video) (i : ℤ) (f : Video → Video) :
    Except JsError (List Video) :=
  match jsIndex vs i with
  | none => .error .typeError
  | some _ => .ok (vs.modify f i.toNat)

/-- Record of the transform set up by one `drawImageAspectFill` call that
reaches `ctx.drawImage`: which branch ran (`widthBranch` iff
`srcAspect < dstAspect`), the uniform scale, the centering translation
applied inside the destination rectangle, and the image dimensions drawn
(before clipping to the destination rectangle). -/
structure AspectFillDraw where
  widthBranch : Bool
  scale : ℚ
  tx : ℚ
  ty : ℚ
  iw : ℚ
  ih : ℚ
deriving DecidableEq, Repr

/-- Embeds `CanvasRenderingContext2D.prototype.drawImageAspectFill`.
`image` is the value passed for the image argument; passing `undefined`
(`none`) throws when `image.naturalWidth` is read. Returns `none` when the
degenerate-input guard skips drawing, else the transform record. -/
def drawImageAspectFill (image : Option Video) (dstRect : Rect) :
    Except JsError (Option AspectFillDraw) :=
  match image with
  | none => .error .typeError
  | some img =>
    let iw := img.naturalWidth
    let ih := img.naturalHeight
    if iw = 0 ∨ ih = 0 ∨ dstRect.size.width = 0 ∨ dstRect.size.height = 0 then
      .ok none
    else
      let srcAspect := iw / ih
      let dstAspect := dstRect.size.width / dstRect.size.height
      if srcAspect < dstAspect then
        let scale := dstRect.size.width / iw
        .ok (some ⟨true, scale, 0, (dstRect.size.height - ih * scale) / 2, iw, ih⟩)
      else
        let scale := dstRect.size.height / ih
        .ok (some ⟨false, scale, (dstRect.size.width - iw * scale) / 2, 0, iw, ih⟩)

/-- State of a `Passthrough` composition: the owned video sources, the
`playing` flag and the current index `vidIdx`. -/
structure Passthrough where
  videos : List Video
  playing : Bool
  vidIdx : ℤ
deriving DecidableEq, Repr

/-- Embeds `Passthrough.stop`: clears `playing` and issues `pause()` to
every owned source. -/
def Passthrough.stop (s : Passthrough) : Passthrough :=
  { s with playing := false, videos := s.videos.map Video.pause }

/-- Embeds `Passthrough.playNext`: no-op on an empty list; otherwise pause
the current source when `vidIdx != -1`, increment the index, wrap to 0 when
it reaches the length, and start the new current source. -/
def Passthrough.playNext (s : Passthrough) : Except JsError Passthrough :=
  if s.videos.length = 0 then .ok s
  else
    match (if s.vidIdx ≠ -1 then jsModify s.videos s.vidIdx Video.pause
           else .ok s.videos) with
    | .error e => .error e
    | .ok vs =>
      let i := s.vidIdx + 1
      let i := if i = (vs.length : ℤ) then 0 else i
      match jsModify vs i Video.playElem with
      | .error e => .error e
      | .ok vs2 => .ok { s with videos := vs2, vidIdx := i }

/-- Embeds `Passthrough.play`: stop, set `playing`, reset `vidIdx` to -1,
then `playNext()`. -/
def Passthrough.play (s : Passthrough) : Except JsError Passthrough :=
  Passthrough.playNext { s.stop with playing := true, vidIdx := -1 }

/-- Embeds `Passthrough.handleEnd`: `playNext()` when `playing` is set. -/
def Passthrough.handleEnd (s : Passthrough) : Except JsError Passthrough :=
  if s.playing then s.playNext else .ok s

/-- Embeds `Passthrough.drawInContext`: nothing when not playing, else an
aspect-fill draw of `videos[vidIdx]` into the full canvas rectangle. -/
def Passthrough.drawInContext (s : Passthrough) (w h : ℚ) :
    Except JsError (Option AspectFillDraw) :=
  if !s.playing then .ok none
  else drawImageAspectFill (jsIndex s.videos s.vidIdx) (Rect.mk4 0 0 w h)

/-- Output of one `Composition.draw` call: the base class always fills the
canvas with the black background, then the subclass hook may draw a frame. -/
structure DrawResult where
  backgroundFilled : Bool
  videoFrame : Option AspectFillDraw
deriving DecidableEq, Repr

/-- Embeds `Composition.draw` specialised to `Passthrough`: black
background fill, then `drawInContext`. -/
def Passthrough.draw (s : Passthrough) (w h : ℚ) : Except JsError DrawResult :=
  (s.drawInContext w h).map fun f => ⟨true, f⟩

/-- Iterated end-of-playback events: the state after `k` successive
`ended` events have been delivered to `handleEnd`. -/
def iterEnds (s : Passthrough) : ℕ → Except JsError Passthrough
  | 0 => .ok s
  | k + 1 => (iterEnds s k).bind Passthrough.handleEnd

/-- One externally triggerable operation on a `Passthrough` composition. -/
inductive Op : Type where
  | doPlayNext : Op
  | doHandleEnd : Op
  | doStop : Op
  | doDraw : ℚ → ℚ → Op
  | doPlay : Op
deriving DecidableEq, Repr

/-- Applies one operation to the composition state. `doDraw` renders but
does not mutate playback state. -/
def applyOp (s : Passthrough) : Op → Except JsError Passthrough
  | .doPlayNext => s.playNext
  | .doHandleEnd => s.handleEnd
  | .doStop => .ok s.stop
  | .doDraw w h => (s.drawInContext w h).map fun _ => s
  | .doPlay => s.play

/-- Runs a sequence of operations, propagating any JavaScript error. -/
def runOps (s : Passthrough) : List Op → Except JsError Passthrough
  | [] => .ok s
  | op :: ops => (applyOp s op).bind fun s' => runOps s' ops

/-- Sample 200×100 video element used to instantiate claims. -/
def video200x100 : Video := ⟨200, 100, false, 0⟩

/-- Sample 100×100 destination rectangle. -/
def dst100 : Rect := Rect.mk4 0 0 100 100

/-- Sample composition with one source. -/
def sample1 : Passthrough := ⟨[video200x100], false, 0⟩

/-- Sample composition with three sources, currently at index 0. -/
def sample3 : Passthrough := ⟨[video200x100, video200x100, video200x100], true, 0⟩

/-- Sample composition with an empty source list. -/
def sampleEmpty : Passthrough := ⟨[], false, -1⟩

/-- Helper: `jsRound` returns a nearest integer, at distance at most that of
any other integer. -/
theorem jsRound_nearest (q : ℚ) (m : ℤ) :
    |q - (jsRound q : ℚ)| ≤ |q - (m : ℚ)| := by
  rcases eq_or_ne m (jsRound q) with h | h
  · rw [h]
  · have hlow : (jsRound q : ℚ) ≤ q + 1 / 2 := Int.floor_le _
    have hhigh : q + 1 / 2 < (jsRound q : ℚ) + 1 := Int.lt_floor_add_one _
    have hr : |q - (jsRound q : ℚ)| ≤ 1 / 2 := by
      rw [abs_le]
      constructor <;> linarith
    have hm : (1 : ℚ) ≤ |(m : ℚ) - (jsRound q : ℚ)| := by
      have h1 : (1 : ℤ) ≤ |m - jsRound q| :=
        Int.one_le_abs (sub_ne_zero_of_ne h)
      have h2 : ((|m - jsRound q| : ℤ) : ℚ) = |(m : ℚ) - (jsRound q : ℚ)| := by
        push_cast [abs_sub_comm]
        rw [abs_sub_comm]
      calc (1 : ℚ) = ((1 : ℤ) : ℚ) := by norm_num
        _ ≤ ((|m - jsRound q| : ℤ) : ℚ) := by exact_mod_cast h1
        _ = |(m : ℚ) - (jsRound q : ℚ)| := h2
    have htri : |(m : ℚ) - (jsRound q : ℚ)| ≤ |q - (m : ℚ)| + |q - (jsRound q : ℚ)| := by
      calc |(m : ℚ) - (jsRound q : ℚ)|
          = |((m : ℚ) - q) + (q - (jsRound q : ℚ))| := by ring_nf
        _ ≤ |(m : ℚ) - q| + |q - (jsRound q : ℚ)| := abs_add _ _
        _ = |q - (m : ℚ)| + |q - (jsRound q : ℚ)| := by rw [abs_sub_comm]
    linarith

/-- Helper: an in-range JavaScript array read yields the element. -/
theorem jsIndex_of_lt {vs : List Video} {i : ℤ} (h0 : 0 ≤ i)
    (hl : i.toNat < vs.length) :
    jsIndex vs i = some (vs.get ⟨i.toNat, hl⟩) := by
  unfold jsIndex
  rw [dif_pos ⟨h0, hl⟩]

/-- Helper: an in-range mutating method call succeeds and updates the
element in place. -/
theorem jsModify_ok {vs : List Video} {i : ℤ} (f : Video → Video)
    (h0 : 0 ≤ i) (hl : i.toNat < vs.length) :
    jsModify vs i f = .ok (vs.modify f i.toNat) := by
  unfold jsModify
  rw [jsIndex_of_lt h0 hl]

/-- Helper: `playNext` from the reset index `-1` on a nonempty list starts
source 0. -/
theorem playNext_eq_of_neg1 (s : Passthrough) (hn : s.videos.length ≠ 0)
    (hidx : s.vidIdx = -1) :
    s.playNext =
      .ok { s with videos := s.videos.modify Video.playElem 0, vidIdx := 0 } := by
  have h0 : (0 : ℤ).toNat < s.videos.length := by omega
  unfold Passthrough.playNext
  rw [if_neg hn, if_neg (by simp [hidx])]
  simp only [hidx]
  norm_num
  rw [jsModify_ok Video.playElem le_rfl h0]
  rfl

/-- Helper: `playNext` from an in-range index pauses the current source,
advances with wraparound, and starts the new one. -/
theorem playNext_eq_of_nonneg (s : Passthrough) (h0 : 0 ≤ s.vidIdx)
    (h2 : s.vidIdx < (s.videos.length : ℤ)) :
    s.playNext =
      .ok { s with
        videos := (s.videos.modify Video.pause s.vidIdx.toNat).modify
          Video.playElem
          (if s.vidIdx + 1 = (s.videos.length : ℤ) then 0
            else s.vidIdx + 1).toNat,
        vidIdx := if s.vidIdx + 1 = (s.videos.length : ℤ) then 0
          else s.vidIdx + 1 } := by
  have hn : s.videos.length ≠ 0 := by omega
  have hne : s.vidIdx ≠ -1 := by omega
  have hl : s.vidIdx.toNat < s.videos.length := by omega
  unfold Passthrough.playNext
  rw [if_neg hn, if_pos hne, jsModify_ok Video.pause h0 hl]
  simp only [List.length_modify]
  by_cases hw : s.vidIdx + 1 = (s.videos.length : ℤ)
  · rw [if_pos hw, jsModify_ok Video.playElem le_rfl
      (by simp only [List.length_modify]; omega)]
  · rw [if_neg hw, jsModify_ok Video.playElem (by omega)
      (by simp only [List.length_modify]; omega)]

/-- Helper: full specification of one `playNext` step from any reachable
index on a nonempty list: the index advances circularly, the new current
source is started, and the previously active source receives a pause. -/
theorem playNext_advances (s : Passthrough) (hn : s.videos.length ≠ 0)
    (h1 : -1 ≤ s.vidIdx) (h2 : s.vidIdx < (s.videos.length : ℤ)) :
    ∃ s', s.playNext = .ok s' ∧
      s'.vidIdx = (s.vidIdx + 1) % (s.videos.length : ℤ) ∧
      s'.playing = s.playing ∧
      s'.videos.length = s.videos.length ∧
      (s'.videos[s'.vidIdx.toNat]?).map Video.isPlaying = some true ∧
      (s.vidIdx ≠ -1 →
        (s'.videos[s.vidIdx.toNat]?).map Video.pauseCount =
          (s.videos[s.vidIdx.toNat]?).map fun v => v.pauseCount + 1) := by
  by_cases hidx : s.vidIdx = -1
  · refine ⟨_, playNext_eq_of_neg1 s hn hidx, by simp [hidx], rfl,
      by simp, ?_, fun hcon => absurd hidx hcon⟩
    have hlt : 0 < s.videos.length := Nat.pos_of_ne_zero hn
    simp [List.getElem?_modify_eq, List.getElem?_eq_getElem hlt, Video.playElem]
  · have h0 : 0 ≤ s.vidIdx := by omega
    have hoT : s.vidIdx.toNat < s.videos.length := by omega
    refine ⟨_, playNext_eq_of_nonneg s h0 h2, ?_, rfl, by simp, ?_, ?_⟩
    · by_cases hw : s.vidIdx + 1 = (s.videos.length : ℤ)
      · rw [if_pos hw, hw, Int.emod_self]
      · rw [if_neg hw, Int.emod_eq_of_lt (by omega) (by omega)]
    · obtain ⟨x, hx⟩ :
          ∃ x, (s.videos.modify Video.pause s.vidIdx.toNat)[(if s.vidIdx + 1 =
            (s.videos.length : ℤ) then 0 else s.vidIdx + 1).toNat]? = some x := by
        refine ⟨_, List.getElem?_eq_getElem ?_⟩
        simp only [List.length_modify]
        by_cases hw : s.vidIdx + 1 = (s.videos.length : ℤ) <;>
          simp only [if_pos, if_neg, hw] <;> omega
      simp [List.getElem?_modify_eq, hx, Video.playElem]
    · intro _
      obtain ⟨v, hv⟩ : ∃ v, s.videos[s.vidIdx.toNat]? = some v :=
        ⟨_, List.getElem?_eq_getElem hoT⟩
      by_cases he : (if s.vidIdx + 1 = (s.videos.length : ℤ) then 0
          else s.vidIdx + 1).toNat = s.vidIdx.toNat
      · rw [he]
        simp [List.getElem?_modify_eq, hv, Video.pause, Video.playElem]
      · rw [List.getElem?_modify_ne _ _ he]
        simp [List.getElem?_modify_eq, hv, Video.pause]

/-- Helper: `play` on a nonempty list succeeds, sets `playing` and lands on
source 0. -/
theorem play_spec (s : Passthrough) (hn : s.videos.length ≠ 0) :
    ∃ s', s.play = .ok s' ∧ s'.vidIdx = 0 ∧ s'.playing = true ∧
      s'.videos.length = s.videos.length := by
  unfold Passthrough.play
  rw [playNext_eq_of_neg1 _ (by simpa [Passthrough.stop] using hn) rfl]
  exact ⟨_, rfl, rfl, rfl, by simp [Passthrough.stop]⟩

/-- Helper: `k` successive end-of-playback events from a playing in-range
state all succeed and advance the index by `k` modulo the source count. -/
theorem iterEnds_spec (s1 : Passthrough) (hn : s1.videos.length ≠ 0)
    (hp : s1.playing = true) (h0 : 0 ≤ s1.vidIdx)
    (h2 : s1.vidIdx < (s1.videos.length : ℤ)) (k : ℕ) :
    ∃ t, iterEnds s1 k = .ok t ∧ t.playing = true ∧
      t.videos.length = s1.videos.length ∧
      t.vidIdx = (s1.vidIdx + k) % (s1.videos.length : ℤ) := by
  have hnz : (s1.videos.length : ℤ) ≠ 0 := by exact_mod_cast hn
  have hpos : (0 : ℤ) < (s1.videos.length : ℤ) := by omega
  induction k with
  | zero =>
    refine ⟨s1, rfl, hp, rfl, ?_⟩
    simpa using (Int.emod_eq_of_lt h0 h2).symm
  | succ k ih =>
    obtain ⟨t, ht, htp, htl, hti⟩ := ih
    have ht0 : 0 ≤ t.vidIdx := by
      rw [hti]; exact Int.emod_nonneg _ hnz
    have ht2 : t.vidIdx < (t.videos.length : ℤ) := by
      rw [hti, htl]; exact Int.emod_lt_of_pos _ hpos
    obtain ⟨t', ht', hti', htp', htl', _, _⟩ :=
      playNext_advances t (by omega) (by omega) ht2
    refine ⟨t', ?_, by rw [htp']; exact htp, by rw [htl']; exact htl, ?_⟩
    · show (iterEnds s1 k).bind Passthrough.handleEnd = .ok t'
      rw [ht]
      show Passthrough.handleEnd t = .ok t'
      unfold Passthrough.handleEnd
      rw [htp, if_pos rfl]
      exact ht'
    · rw [hti', hti, htl, Int.emod_add_emod]
      push_cast
      ring_nf

/-- Helper: `drawImageAspectFill` on a defined image never fails. -/
theorem drawImageAspectFill_some_ok (v : Video) (r : Rect) :
    ∃ o, drawImageAspectFill (some v) r = .ok o := by
  simp only [drawImageAspectFill]
  split
  · exact ⟨_, rfl⟩
  · split
    · exact ⟨_, rfl⟩
    · exact ⟨_, rfl⟩

/-- Helper: `drawInContext` succeeds whenever the current index is in
bounds. -/
theorem drawInContext_ok (s : Passthrough) (w h : ℚ)
    (hb : 0 ≤ s.vidIdx) (hl : s.vidIdx.toNat < s.videos.length) :
    ∃ o, s.drawInContext w h = .ok o := by
  unfold Passthrough.drawInContext
  cases hps : s.playing
  · exact ⟨none, rfl⟩
  · rw [jsIndex_of_lt hb hl]
    simpa using
      drawImageAspectFill_some_ok (s.videos.get ⟨s.vidIdx.toNat, hl⟩)
        (Rect.mk4 0 0 w h)

/-- Invariant for C9: the source count is `n` and the index is in
`[0, n)`. -/
def InBounds (n : ℕ) (s : Passthrough) : Prop :=
  s.videos.length = n ∧ 0 ≤ s.vidIdx ∧ s.vidIdx < (n : ℤ)

/-- Helper: every single operation from an in-bounds state succeeds and
stays in bounds. -/
theorem applyOp_preserves (n : ℕ) (s : Passthrough)
    (hInv : InBounds n s) (op : Op) :
    ∃ s', applyOp s op = .ok s' ∧ InBounds n s' := by
  obtain ⟨hlen, h0, h2⟩ := hInv
  have hnz : ((s.videos.length : ℤ)) ≠ 0 := by omega
  have hpos : (0 : ℤ) < (s.videos.length : ℤ) := by omega
  cases op with
  | doPlayNext =>
    obtain ⟨s', hs', hi, hp, hl, _, _⟩ :=
      playNext_advances s (by omega) (by omega) (by omega)
    refine ⟨s', hs', by omega, ?_, ?_⟩
    · rw [hi]; exact Int.emod_nonneg _ hnz
    · rw [hi]
      calc (s.vidIdx + 1) % (s.videos.length : ℤ) < (s.videos.length : ℤ) :=
          Int.emod_lt_of_pos _ hpos
        _ = (n : ℤ) := by omega
  | doHandleEnd =>
    show ∃ s', s.handleEnd = .ok s' ∧ InBounds n s'
    unfold Passthrough.handleEnd
    cases hps : s.playing
    · exact ⟨s, rfl, hlen, h0, h2⟩
    · rw [if_pos rfl]
      obtain ⟨s', hs', hi, hp, hl, _, _⟩ :=
        playNext_advances s (by omega) (by omega) (by omega)
      refine ⟨s', hs', by omega, ?_, ?_⟩
      · rw [hi]; exact Int.emod_nonneg _ hnz
      · rw [hi]
        calc (s.vidIdx + 1) % (s.videos.length : ℤ) < (s.videos.length : ℤ) :=
            Int.emod_lt_of_pos _ hpos
          _ = (n : ℤ) := by omega
  | doStop =>
    exact ⟨s.stop, rfl, by simp [Passthrough.stop, hlen], h0, h2⟩
  | doDraw w h =>
    obtain ⟨o, ho⟩ := drawInContext_ok s w h h0 (by omega)
    exact ⟨s, by show (s.drawInContext w h).map _ = _; rw [ho]; rfl,
      hlen, h0, h2⟩
  | doPlay =>
    obtain ⟨s', hs', hi, hp, hl⟩ := play_spec s (by omega)
    exact ⟨s', hs', by omega, by omega, by omega⟩

/-- Helper: any sequence of operations from an in-bounds state succeeds and
stays in bounds. -/
theorem runOps_preserves (n : ℕ) (ops : List Op)
    (s : Passthrough) (hInv : InBounds n s) :
    ∃ s', runOps s ops = .ok s' ∧ InBounds n s' := by
  induction ops generalizing s with
  | nil => exact ⟨s, rfl, hInv⟩
  | cons op ops ih =>
    obtain ⟨t, ht, hInvT⟩ := applyOp_preserves n s hInv op
    obtain ⟨s', hs', hInv'⟩ := ih t hInvT
    refine ⟨s', ?_, hInv'⟩
    show (applyOp s op).bind (fun t => runOps t ops) = .ok s'
    rw [ht]
    exact hs'

/-- C3: the claim states `R.inset(dx, dy)` moves the origin by `(dx, dy)`.
The code instead adds `dx` to both origin coordinates: at
`R = Rect(0, 0, 10, 10)`, `dx = 1`, `dy = 2`, the result is
`Rect(1, 1, 8, 6)`, whose Y origin is `0 + dx = 1`, not `0 + dy = 2`.
The sizes do shrink by `2*dx` and `2*dy` as claimed. -/
theorem inset_applies_dx_to_y_origin :
    (Rect.mk4 0 0 10 10).inset 1 2 = Rect.mk4 1 1 8 6 ∧
      ((Rect.mk4 0 0 10 10).inset 1 2).origin.y ≠ (0 : ℚ) + 2 := by
  constructor
  · simp only [Rect.inset, Rect.mk4]
    norm_num
  · simp only [Rect.inset, Rect.mk4]
    norm_num

/-- C6: for every rectangle `R` and outer rectangle `O`,
`R.centeredIn(O)` keeps `R`'s size and its center (`midX`, `midY`)
coincides exactly with `O`'s center; no clamping occurs for any sizes. -/
theorem centeredIn_same_size_and_center (R O : Rect) :
    (R.centeredIn O).size = R.size ∧
      (R.centeredIn O).midX = O.midX ∧ (R.centeredIn O).midY = O.midY := by
  refine ⟨rfl, ?_, ?_⟩ <;>
    simp only [Rect.centeredIn, Rect.midX, Rect.midY, Rect.minX, Rect.minY] <;>
    ring

/-- C7: for every rectangle `R`, each of the four numeric fields of
`R.alignedToGrid()` is the corresponding field of `R` rounded to a nearest
integer: the field equals `jsRound` of the original, and `jsRound` is at
distance at most that of any integer. -/
theorem alignedToGrid_rounds_each_field (R : Rect) :
    (R.alignedToGrid).origin.x = (jsRound R.origin.x : ℚ) ∧
      (R.alignedToGrid).origin.y = (jsRound R.origin.y : ℚ) ∧
      (R.alignedToGrid).size.width = (jsRound R.size.width : ℚ) ∧
      (R.alignedToGrid).size.height = (jsRound R.size.height : ℚ) ∧
      (∀ (q : ℚ) (m : ℤ), |q - (jsRound q : ℚ)| ≤ |q - (m : ℚ)|) :=
  ⟨rfl, rfl, rfl, rfl, jsRound_nearest⟩

/-- C8: `R.containsPoint(P)` is true exactly when `P` lies within `R`'s
inclusive min/max bounds on both axes. -/
theorem containsPoint_iff_inclusive_bounds (R : Rect) (P : Point) :
    R.containsPoint P = true ↔
      (R.minX ≤ P.x ∧ P.x ≤ R.maxX ∧ R.minY ≤ P.y ∧ P.y ≤ R.maxY) := by
  simp only [Rect.containsPoint, Bool.and_eq_true, decide_eq_true_eq, ge_iff_le]
  tauto

/-- C10: insetting by `(dx, dy)` and then by `(-dx, -dy)` returns to the
original rectangle under `Rect.equals`, the Y-origin offset slip cancelling
with itself. -/
theorem inset_roundtrip_equals (R : Rect) (dx dy : ℚ) :
    Rect.equals ((R.inset dx dy).inset (-dx) (-dy)) R = true := by
  simp only [Rect.equals, Rect.inset, Point.equals, Size.equals,
    Bool.and_eq_true, beq_iff_eq]
  refine ⟨⟨?_, ?_⟩, ?_, ?_⟩ <;> ring

/-- C1: contrary to the claim, with an empty video list `play()` leaves
`playing = true` and `vidIdx = -1` (since `playNext()` is a no-op), and
every subsequent `draw()` throws a `TypeError` when `drawImageAspectFill`
reads `naturalWidth` of the undefined `videos[-1]`, instead of completing
with background-only output. -/
theorem empty_list_draw_throws (b : Bool) (i : ℤ) (w h : ℚ) :
    (Passthrough.mk [] b i).play = .ok (Passthrough.mk [] true (-1)) ∧
      (Passthrough.mk [] true (-1)).draw w h = .error .typeError :=
  ⟨rfl, rfl⟩

/-- C2 counterexample: for a 200×100 source into a 100×100 destination the
code takes the `else` (height-matching) branch, because
`srcAspect = 2 < dstAspect = 1` is false; the scale is `1`, not `1/2`, and
the horizontal inset is `-50`, not `0`. -/
theorem aspectFill_200x100_counterexample :
    drawImageAspectFill (some video200x100) dst100 =
      .ok (some (AspectFillDraw.mk false 1 (-50) 0 200 100)) ∧
      (AspectFillDraw.mk false 1 (-50) 0 200 100).scale ≠ 1 / 2 ∧
      (AspectFillDraw.mk false 1 (-50) 0 200 100).widthBranch ≠ true ∧
      (AspectFillDraw.mk false 1 (-50) 0 200 100).tx ≠ 0 := by
  refine ⟨?_, by norm_num, by simp, by norm_num⟩
  norm_num [drawImageAspectFill, video200x100, dst100, Rect.mk4]

/-- C2 amended: for a 200×100 source into a 100×100 destination the
computed uniform scale equals 1 and comes from the height-matching branch,
with zero vertical offset and horizontal inset `(100 - 200*1)/2 = -50`, so
the drawn content has width 200 and height 100 (cropped by the clip to the
100×100 destination). -/
theorem aspectFill_200x100_height_branch :
    drawImageAspectFill (some video200x100) dst100 =
      .ok (some (AspectFillDraw.mk false 1 (-50) 0 200 100)) ∧
      (AspectFillDraw.mk false 1 (-50) 0 200 100).iw *
        (AspectFillDraw.mk false 1 (-50) 0 200 100).scale = 200 ∧
      (AspectFillDraw.mk false 1 (-50) 0 200 100).ih *
        (AspectFillDraw.mk false 1 (-50) 0 200 100).scale = 100 ∧
      (AspectFillDraw.mk false 1 (-50) 0 200 100).tx = (100 - 200 * 1) / 2 ∧
      (AspectFillDraw.mk false 1 (-50) 0 200 100).ty = 0 := by
  refine ⟨?_, by norm_num, by norm_num, by norm_num, rfl⟩
  norm_num [drawImageAspectFill, video200x100, dst100, Rect.mk4]

/-- C4: `playNext()` is a no-op on an empty list; on a nonempty list it
pauses the active source (when the index is not -1), advances the index
circularly as `(idx+1) mod n`, and starts the new current source; with
three sources, after `play()` and `k` end events the index is `k mod 3`,
giving the sequence 0,1,2,0,1,2,... indefinitely. -/
theorem playNext_circular :
    (∀ s : Passthrough, s.videos.length = 0 → s.playNext = .ok s) ∧
    (∀ s : Passthrough, 1 ≤ s.videos.length → -1 ≤ s.vidIdx →
      s.vidIdx < (s.videos.length : ℤ) →
      ∃ s', s.playNext = .ok s' ∧
        s'.vidIdx = (s.vidIdx + 1) % (s.videos.length : ℤ) ∧
        s'.playing = s.playing ∧
        s'.videos.length = s.videos.length ∧
        (s'.videos[s'.vidIdx.toNat]?).map Video.isPlaying = some true ∧
        (s.vidIdx ≠ -1 →
          (s'.videos[s.vidIdx.toNat]?).map Video.pauseCount =
            (s.videos[s.vidIdx.toNat]?).map fun v => v.pauseCount + 1)) ∧
    (∀ s0 : Passthrough, s0.videos.length = 3 → ∀ k : ℕ,
      ∃ t, (s0.play.bind fun s1 => iterEnds s1 k) = .ok t ∧
        t.vidIdx = (k : ℤ) % 3) := by
  refine ⟨?_, ?_, ?_⟩
  · intro s hs
    unfold Passthrough.playNext
    rw [if_pos hs]
  · intro s h1 hlo hhi
    exact playNext_advances s (by omega) hlo hhi
  · intro s0 hs0 k
    obtain ⟨s1, h1, hi1, hp1, hl1⟩ := play_spec s0 (by omega)
    obtain ⟨t, ht, _, _, hti⟩ :=
      iterEnds_spec s1 (by omega) hp1 (by omega) (by omega) k
    refine ⟨t, ?_, ?_⟩
    · rw [h1]
      exact ht
    · rw [hti, hi1, hl1, hs0]
      norm_num

/-- C4 witness: the specification instantiated at an empty composition and
at a concrete three-source composition, with seven end events. -/
theorem playNext_circular_witness :
    (sampleEmpty.playNext = .ok sampleEmpty) ∧
    (∃ s', sample3.playNext = .ok s' ∧
        s'.vidIdx = (sample3.vidIdx + 1) % (sample3.videos.length : ℤ) ∧
        s'.playing = sample3.playing ∧
        s'.videos.length = sample3.videos.length ∧
        (s'.videos[s'.vidIdx.toNat]?).map Video.isPlaying = some true ∧
        (sample3.vidIdx ≠ -1 →
          (s'.videos[sample3.vidIdx.toNat]?).map Video.pauseCount =
            (sample3.videos[sample3.vidIdx.toNat]?).map
              fun v => v.pauseCount + 1)) ∧
    (∃ t, (sample3.play.bind fun s1 => iterEnds s1 7) = .ok t ∧
      t.vidIdx = ((7 : ℕ) : ℤ) % 3) :=
  ⟨playNext_circular.1 sampleEmpty rfl,
   playNext_circular.2.1 sample3 (by decide) (by decide) (by decide),
   playNext_circular.2.2 sample3 (by decide) 7⟩

/-- C5: `stop()` clears the `playing` flag and issues `pause()` to every
owned source (each source ends up paused with its pause count incremented);
a subsequent `draw()` yields background-only output with no video frame,
and stopping an already stopped composition is equally safe. -/
theorem stop_pauses_all (s : Passthrough) (w h : ℚ) :
    (s.stop).playing = false ∧
      (s.stop).videos = s.videos.map Video.pause ∧
      (∀ v ∈ (s.stop).videos, v.isPlaying = false) ∧
      (∀ i : ℕ, ((s.stop).videos[i]?).map Video.pauseCount =
        (s.videos[i]?).map fun v => v.pauseCount + 1) ∧
      (s.stop).draw w h = .ok ⟨true, none⟩ ∧
      ((s.stop).stop).playing = false ∧
      ((s.stop).stop).draw w h = .ok ⟨true, none⟩ := by
  refine ⟨rfl, rfl, ?_, ?_, rfl, rfl, rfl⟩
  · intro v hv
    simp only [Passthrough.stop, List.mem_map] at hv
    obtain ⟨a, _, ha⟩ := hv
    rw [← ha]
    rfl
  · intro i
    show ((s.videos.map Video.pause)[i]?).map Video.pauseCount = _
    rw [List.getElem?_map]
    cases s.videos[i]? <;> simp [Video.pause]

/-- C5 witness: the specification instantiated at a concrete one-source
composition and a 4×3 canvas. -/
theorem stop_pauses_all_witness :
    (sample1.stop).playing = false ∧
      (sample1.stop).videos = sample1.videos.map Video.pause ∧
      (∀ v ∈ (sample1.stop).videos, v.isPlaying = false) ∧
      (∀ i : ℕ, ((sample1.stop).videos[i]?).map Video.pauseCount =
        (sample1.videos[i]?).map fun v => v.pauseCount + 1) ∧
      (sample1.stop).draw 4 3 = .ok ⟨true, none⟩ ∧
      ((sample1.stop).stop).playing = false ∧
      ((sample1.stop).stop).draw 4 3 = .ok ⟨true, none⟩ :=
  stop_pauses_all sample1 4 3

/-- C9: after `play()` on a composition with at least one source, any
sequence of `playNext`, `handleEnd`, `stop`, `draw` and `play` operations
succeeds and keeps `vidIdx` within `[0, n)`, so the array access
`videos[vidIdx]` performed by `drawInContext` is always defined. -/
theorem vidIdx_stays_in_bounds (s : Passthrough) (hn : 1 ≤ s.videos.length)
    (ops : List Op) :
    ∃ s', (s.play.bind fun s1 => runOps s1 ops) = .ok s' ∧
      0 ≤ s'.vidIdx ∧ s'.vidIdx < (s.videos.length : ℤ) ∧
      (jsIndex s'.videos s'.vidIdx).isSome = true := by
  obtain ⟨s1, h1, hi1, hp1, hl1⟩ := play_spec s (by omega)
  have hInv1 : InBounds s.videos.length s1 := ⟨hl1, by omega, by omega⟩
  obtain ⟨t, ht, htl, ht0, ht2⟩ :=
    runOps_preserves s.videos.length ops s1 hInv1
  refine ⟨t, ?_, ht0, ht2, ?_⟩
  · rw [h1]
    exact ht
  · rw [jsIndex_of_lt ht0 (by omega)]
    rfl

/-- C9 witness: the bound holds after `play()` and a concrete mixed
operation sequence on a one-source composition. -/
theorem vidIdx_stays_in_bounds_witness :
    ∃ s', (sample1.play.bind fun s1 => runOps s1
        [Op.doHandleEnd, Op.doStop, Op.doDraw 4 3, Op.doPlayNext,
          Op.doPlay]) = .ok s' ∧
      0 ≤ s'.vidIdx ∧ s'.vidIdx < (sample1.videos.length : ℤ) ∧
      (jsIndex s'.videos s'.vidIdx).isSome = true :=
  vidIdx_stays_in_bounds sample1 (by decide)
    [Op.doHandleEnd, Op.doStop, Op.doDraw 4 3, Op.doPlayNext, Op.doPlay]

end HVR
